import Mathlib

/-
Verification of the libslz public contract (src/slz.h) against its
natural-language specification.

The repository source under verification consists of the header slz.h, which
contains the stream data model (struct slz_stream with its bitfields), the
state and format enumerations, and the three static inline entry points
slz_init, slz_encode and slz_finish, whose dispatch logic is transcribed
here verbatim.  The bodies of the per-format functions (slz_rfc195x_init,
slz_rfc195x_encode, slz_rfc195x_finish, the CRC-32 and Adler-32 update
routines) are declared in the header but their definitions are not part of
the sources available here; where a claim depends on them they are modelled
from the specification, and each such definition is marked in its doc
comment.

Machine integers are modelled as Nat with explicit truncation:
a uint32_t value is a Nat kept below 2 ^ 32, the 2-bit format bitfield
stores its value mod 4, the 1-bit level bitfield stores its value mod 2
(C11 6.7.2.1: assignment to an unsigned bitfield of width w reduces the
value modulo 2 ^ w).  C int arguments are modelled as Int.
-/

/-- States of enum slz_state, slz.h lines 24-31. -/
inductive SlzState where
  | INIT
  | EOB
  | FIXED
  | LAST
  | DONE
  | END
  deriving DecidableEq, Repr

/-- Numeric rank of a state, in declaration order of enum slz_state; used to
express that the state only moves forward. -/
def stateRank : SlzState → Nat
  | SlzState.INIT => 0
  | SlzState.EOB => 1
  | SlzState.FIXED => 2
  | SlzState.LAST => 3
  | SlzState.DONE => 4
  | SlzState.END => 5

/-- The three per-format function families declared in slz.h: rfc1951 (raw
deflate), rfc1952 (gzip), rfc1950 (zlib).  Used as the observable result of
the dispatch performed by slz_init, slz_encode and slz_finish. -/
inductive Codec where
  | rfc1951
  | rfc1952
  | rfc1950
  deriving DecidableEq, Repr

/-- Format constant SLZ_FMT_GZIP, slz.h line 34. -/
def SLZ_FMT_GZIP : Int := 0

/-- Format constant SLZ_FMT_ZLIB, slz.h line 35. -/
def SLZ_FMT_ZLIB : Int := 1

/-- Format constant SLZ_FMT_DEFLATE, slz.h line 36. -/
def SLZ_FMT_DEFLATE : Int := 2

/-- struct slz_stream, slz.h lines 39-49.  The outbuf pointer is not
modelled (output bytes are returned explicitly by the operations).  The
fields level and format are the 1-bit and 2-bit unsigned bitfields of the
struct, so they always hold values below 2 and 4 respectively. -/
structure SlzStream where
  queue : Nat
  qbits : Nat
  state : SlzState
  level : Nat
  format : Nat
  crc32 : Nat
  ilen : Nat
  deriving DecidableEq, Repr

/-- Modelled from the spec: the body of slz_rfc1951_init is not under src
(only its declaration, slz.h line 54).  Per spec section 4.4 and 4.5, init
resets the bit queue, the checksum accumulator and the input length, puts
the stream in state INIT, records the raw-deflate format, and always
succeeds returning 0. -/
def slz_rfc1951_init (strm : SlzStream) : SlzStream × Int :=
  ({ strm with queue := 0, qbits := 0, state := SlzState.INIT,
               format := SLZ_FMT_DEFLATE.toNat, crc32 := 0, ilen := 0 }, 0)

/-- Modelled from the spec: the body of slz_rfc1952_init is not under src
(only its declaration, slz.h line 63).  Same as the raw-deflate init but the
recorded format is gzip. -/
def slz_rfc1952_init (strm : SlzStream) : SlzStream × Int :=
  ({ strm with queue := 0, qbits := 0, state := SlzState.INIT,
               format := SLZ_FMT_GZIP.toNat, crc32 := 0, ilen := 0 }, 0)

/-- Modelled from the spec: the body of slz_rfc1950_init is not under src
(only its declaration, slz.h line 71).  Same as the raw-deflate init but the
recorded format is zlib and the checksum accumulator is the Adler-32 initial
value 1 (RFC 1950). -/
def slz_rfc1950_init (strm : SlzStream) : SlzStream × Int :=
  ({ strm with queue := 0, qbits := 0, state := SlzState.INIT,
               format := SLZ_FMT_ZLIB.toNat, crc32 := 1, ilen := 0 }, 0)

/-- Transcription of slz_init, slz.h lines 82-96.  The format and level
arguments are C int values; the assignments strm->format = format and
strm->level = level store into unsigned bitfields of widths 2 and 1, hence
the reductions mod 4 and mod 2. -/
def slz_init (strm : SlzStream) (level format : Int) : SlzStream × Int :=
  let p :=
    if format = SLZ_FMT_GZIP then slz_rfc1952_init strm
    else if format = SLZ_FMT_ZLIB then slz_rfc1950_init strm
    else
      let q := slz_rfc1951_init strm
      ({ q.1 with format := (format % 4).toNat }, q.2)
  ({ p.1 with level := (level % 2).toNat }, p.2)

/-- The branch taken by slz_init on its format argument, slz.h lines 86-93:
which per-format init function runs. -/
def initDispatch (format : Int) : Codec :=
  if format = SLZ_FMT_GZIP then Codec.rfc1952
  else if format = SLZ_FMT_ZLIB then Codec.rfc1950
  else Codec.rfc1951

/-- Transcription of the dispatch in slz_encode, slz.h lines 107-112: which
per-format encode function a call on this stream runs, decided by the stored
2-bit format field. -/
def encodeDispatch (strm : SlzStream) : Codec :=
  if strm.format = SLZ_FMT_GZIP.toNat then Codec.rfc1952
  else if strm.format = SLZ_FMT_ZLIB.toNat then Codec.rfc1950
  else Codec.rfc1951

/-- Transcription of the dispatch in slz_finish, slz.h lines 129-134: which
per-format finish function a call on this stream runs, decided by the stored
2-bit format field. -/
def finishDispatch (strm : SlzStream) : Codec :=
  if strm.format = SLZ_FMT_GZIP.toNat then Codec.rfc1952
  else if strm.format = SLZ_FMT_ZLIB.toNat then Codec.rfc1950
  else Codec.rfc1951

/-- Modelled from the spec: the bodies of the slz_rfc195x_encode functions
are not under src (only their declarations).  This models the effect of one
slz_encode call on the stream fields the claims are about: the accumulated
input length grows by the ilen argument (reduced mod 2 ^ 32, the field being
a uint32_t), and the state advances per the transition table of spec section
4.4: a call with more data expected stays inside a fixed-Huffman block
(FIXED), a final call runs through LAST to DONE, and a call made after the
stream is finalized (a caller contract violation per spec section 7) leaves
the state where it was.  Checksum updating and output bytes are abstracted
here; the checksum functions are modelled separately. -/
def encodeStep (strm : SlzStream) (ilen : Nat) (more : Bool) : SlzStream :=
  let st :=
    match strm.state with
    | SlzState.INIT => if more then SlzState.FIXED else SlzState.DONE
    | SlzState.EOB => if more then SlzState.FIXED else SlzState.DONE
    | SlzState.FIXED => if more then SlzState.FIXED else SlzState.DONE
    | SlzState.LAST => SlzState.DONE
    | SlzState.DONE => SlzState.DONE
    | SlzState.END => SlzState.END
  { strm with state := st, ilen := (strm.ilen + ilen) % 2 ^ 32 }

/-- Folds a sequence of slz_encode calls, each given by its ilen argument
and more flag, over a stream. -/
def runEncodes (strm : SlzStream) (calls : List (Nat × Bool)) : SlzStream :=
  calls.foldl (fun s c => encodeStep s c.1 c.2) strm

/-- Little-endian serialization of a 32-bit value into 4 bytes. -/
def le32 (v : Nat) : List Nat :=
  [v % 256, v / 2 ^ 8 % 256, v / 2 ^ 16 % 256, v / 2 ^ 24 % 256]

/-- Big-endian serialization of a 32-bit value into 4 bytes. -/
def be32 (v : Nat) : List Nat :=
  [v / 2 ^ 24 % 256, v / 2 ^ 16 % 256, v / 2 ^ 8 % 256, v % 256]

/-- Bytes emitted when the pending bit queue is flushed to the next byte
boundary: one byte per started group of 8 pending bits, LSB first. -/
def flushQueue (queue qbits : Nat) : List Nat :=
  (List.range ((qbits + 7) / 8)).map (fun i => queue / 2 ^ (8 * i) % 256)

/-- Trailer bytes appended after the flush by the per-format finish
functions, per spec section 6: gzip appends the little-endian CRC-32 then
the little-endian input length, zlib appends the big-endian Adler-32, raw
deflate appends nothing. -/
def trailerBytes (strm : SlzStream) : List Nat :=
  if strm.format = SLZ_FMT_GZIP.toNat then le32 strm.crc32 ++ le32 strm.ilen
  else if strm.format = SLZ_FMT_ZLIB.toNat then be32 strm.crc32
  else []

/-- Modelled from the spec: the bodies of the slz_rfc195x_finish functions
are not under src (only their declarations); only the dispatch of slz_finish
(slz.h lines 125-137) is.  Per spec sections 4.4 and 6, finish on a stream
already at END is a no-op emitting nothing; otherwise it flushes the pending
bit queue to a byte boundary, appends the format's trailer bytes, and moves
the state to END.  The C function returns the number of bytes written; this
model returns the bytes themselves. -/
def slz_finish (strm : SlzStream) : SlzStream × List Nat :=
  if strm.state = SlzState.END then (strm, [])
  else
    ({ strm with queue := 0, qbits := 0, state := SlzState.END },
     flushQueue strm.queue strm.qbits ++ trailerBytes strm)

/-- One operation on an initialized stream: an slz_encode call (with its
ilen argument and more flag) or an slz_finish call. -/
inductive SlzOp where
  | encode (ilen : Nat) (more : Bool)
  | finish
  deriving DecidableEq, Repr

/-- Applies one operation to a stream, keeping only the resulting stream. -/
def applyOp (strm : SlzStream) : SlzOp → SlzStream
  | SlzOp.encode n m => encodeStep strm n m
  | SlzOp.finish => (slz_finish strm).1

/-- Applies a sequence of operations to a stream, left to right. -/
def runOps (strm : SlzStream) (ops : List SlzOp) : SlzStream :=
  ops.foldl applyOp strm

/-- A concrete stream used to instantiate universally quantified theorems. -/
def sampleStream : SlzStream :=
  { queue := 0, qbits := 0, state := SlzState.INIT,
    level := 1, format := 2, crc32 := 0, ilen := 0 }

/-- A concrete stream in state DONE, as left by a final encode call on a
gzip stream: 3 pending bits, some checksum and 41 input bytes counted. -/
def doneStream : SlzStream :=
  { queue := 5, qbits := 3, state := SlzState.DONE,
    level := 1, format := 0, crc32 := 287454020, ilen := 41 }

/-- The reflected CRC-32 polynomial of RFC 1952. -/
def crcPoly : Nat := 0xedb88320

/-- One bit step of the reflected CRC-32: shift right, conditionally folding
in the polynomial. -/
def crcStepBit (c : Nat) : Nat :=
  if c &&& 1 = 1 then (c >>> 1) ^^^ crcPoly else c >>> 1

/-- Modelled from the spec: the CRC-32 lookup table built by
slz_make_crc_table (declared slz.h line 58, body not under src): entry b is
the byte b put through 8 bit steps. -/
def crcTable0 (b : Nat) : Nat := crcStepBit^[8] b

/-- One byte step of the table-driven CRC-32. -/
def crcF (y : Nat) : Nat := crcTable0 (y &&& 255) ^^^ (y >>> 8)

/-- The k-th slicing table: entry b of table k+1 is entry b of table k put
through one further byte step.  Table 0 is the classic CRC-32 table. -/
def crcTable : Nat → Nat → Nat
  | 0, b => crcTable0 b
  | k + 1, b => crcF (crcTable k b)

/-- One byte update of the running CRC, as performed per input byte. -/
def crcByte (c b : Nat) : Nat :=
  crcTable0 ((c ^^^ b) &&& 255) ^^^ (c >>> 8)

/-- Modelled from the spec: the body of slz_crc32_by1 (declared slz.h line
59) is not under src.  Byte-at-a-time CRC-32 update of a running state over
a buffer. -/
def slz_crc32_by1 (crc : Nat) (buf : List Nat) : Nat :=
  buf.foldl crcByte crc

/-- One 4-byte batch of the slicing-by-4 CRC-32: the four bytes are folded
into the four low bytes of the state and looked up in the four slicing
tables. -/
def crcWord4 (c b0 b1 b2 b3 : Nat) : Nat :=
  crcTable 3 ((c &&& 255) ^^^ b0) ^^^
  crcTable 2 (((c >>> 8) &&& 255) ^^^ b1) ^^^
  crcTable 1 (((c >>> 16) &&& 255) ^^^ b2) ^^^
  crcTable 0 (((c >>> 24) &&& 255) ^^^ b3)

/-- Modelled from the spec: the body of slz_crc32_by4 (declared slz.h line
60) is not under src.  Per spec section 4.2 the CRC is updated in
table-driven multi-byte batches: whole groups of 4 bytes go through the
slicing-by-4 batch step, the at most 3 remaining bytes through the
byte-at-a-time update. -/
def slz_crc32_by4 : Nat → List Nat → Nat
  | c, b0 :: b1 :: b2 :: b3 :: rest => slz_crc32_by4 (crcWord4 c b0 b1 b2 b3) rest
  | c, rest => slz_crc32_by1 c rest

/-- The Adler-32 modulus 65521 of RFC 1950. -/
def adlerMod : Nat := 65521

/-- Unpacks a 32-bit Adler state into its two 16-bit running sums, low half
first. -/
def adlerUnpack (crc : Nat) : Nat × Nat :=
  (crc % 65536, crc / 65536 % 65536)

/-- Packs the two Adler running sums back into a 32-bit state. -/
def adlerPack (p : Nat × Nat) : Nat :=
  p.2 * 65536 + p.1

/-- One byte update of the Adler-32 pair, each sum reduced mod 65521. -/
def adlerStep (p : Nat × Nat) (b : Nat) : Nat × Nat :=
  ((p.1 + b) % adlerMod, (p.2 + (p.1 + b) % adlerMod) % adlerMod)

/-- Modelled from the spec: the body of slz_adler32_by1 (declared slz.h line
67) is not under src.  Byte-at-a-time Adler-32 update: unpack the two sums,
fold every byte through the reduced byte step, repack. -/
def slz_adler32_by1 (crc : Nat) (buf : List Nat) : Nat :=
  adlerPack (buf.foldl adlerStep (adlerUnpack crc))

/-- Accumulation of one chunk of bytes into the Adler pair without
intermediate reduction, both sums reduced once at the end of the chunk. -/
def adlerChunk (p : Nat × Nat) (bs : List Nat) : Nat × Nat :=
  let u := bs.foldl (fun q b => (q.1 + b, q.2 + q.1 + b)) p
  (u.1 % adlerMod, u.2 % adlerMod)

/-- Chunked Adler accumulation: chunks of at most 5552 bytes (the largest
count whose unreduced sums still fit a 32-bit accumulator) are accumulated
and reduced chunk by chunk. -/
def adlerBlocks (p : Nat × Nat) (bs : List Nat) : Nat × Nat :=
  if _h : bs.length ≤ 5552 then
    if bs = [] then p else adlerChunk p bs
  else
    adlerBlocks (adlerChunk p (bs.take 5552)) (bs.drop 5552)
  termination_by bs.length
  decreasing_by
    simp only [List.length_drop]
    omega

/-- Modelled from the spec: the body of slz_adler32_block (declared slz.h
line 68) is not under src.  Per spec section 4.2 the block update
accumulates the two sums with periodic modulo reduction: unpack, run the
chunked accumulation, repack. -/
def slz_adler32_block (crc : Nat) (buf : List Nat) : Nat :=
  adlerPack (adlerBlocks (adlerUnpack crc) buf)

/-- Unreduced accumulation of the two Adler sums over a byte list, as
performed inside one chunk of the block update. -/
def adlerRaw (p : Nat × Nat) (bs : List Nat) : Nat × Nat :=
  bs.foldl (fun q b => (q.1 + b, q.2 + q.1 + b)) p

/-- Helper: the result stream of slz_init on a format other than gzip and
zlib carries format mod 4 in its 2-bit format field. -/
theorem slz_init_format_eq (strm : SlzStream) (level format : Int)
    (h0 : format ≠ SLZ_FMT_GZIP) (h1 : format ≠ SLZ_FMT_ZLIB) :
    (slz_init strm level format).1.format = (format % 4).toNat := by
  simp only [slz_init, slz_rfc1951_init, if_neg h0, if_neg h1]

/-- Helper: format % 4 as an Int lies between 0 and 3. -/
theorem format_emod_lt (format : Int) : 0 ≤ format % 4 ∧ format % 4 < 4 :=
  ⟨Int.emod_nonneg format (by decide), Int.emod_lt_of_pos format (by decide)⟩

/-- C7: for every level and format argument, slz_init succeeds
unconditionally and returns 0; there is no input for which it reports an
error. -/
theorem slz_init_always_returns_zero (strm : SlzStream) (level format : Int) :
    (slz_init strm level format).2 = 0 := by
  simp only [slz_init, slz_rfc1952_init, slz_rfc1950_init, slz_rfc1951_init]
  split
  · rfl
  · split <;> rfl

/-- C10: the level field of struct slz_stream is a 1-bit bitfield, so
slz_init stores level mod 2: every even level argument configures store mode
(level 0) and every odd one compression (level 1), deterministically. -/
theorem slz_init_level_bitfield (strm : SlzStream) (level format : Int) :
    (slz_init strm level format).1.level = (level % 2).toNat ∧
    (level % 2 = 0 → (slz_init strm level format).1.level = 0) ∧
    (level % 2 = 1 → (slz_init strm level format).1.level = 1) := by
  refine ⟨?_, ?_, ?_⟩
  · simp only [slz_init]
  · intro h
    simp only [slz_init, h]
    rfl
  · intro h
    simp only [slz_init, h]
    rfl

/-- Witness for C10 at the concrete arguments level = 2 and level = 3:
an even level is stored as 0 and an odd one as 1. -/
theorem slz_init_level_bitfield_witness :
    (slz_init sampleStream 2 0).1.level = 0 ∧
    (slz_init sampleStream 3 0).1.level = 1 :=
  ⟨(slz_init_level_bitfield sampleStream 2 0).2.1 (by decide),
   (slz_init_level_bitfield sampleStream 3 0).2.2 (by decide)⟩

/-- C9: the format field is a 2-bit bitfield, so for every format argument
other than SLZ_FMT_GZIP and SLZ_FMT_ZLIB, slz_init stores format mod 4; when
that residue is 0 (respectively 1) the later slz_encode and slz_finish calls
dispatch to the rfc1952 gzip (respectively rfc1950 zlib) functions rather
than to raw deflate. -/
theorem slz_init_format_bitfield (strm : SlzStream) (level format : Int)
    (h0 : format ≠ SLZ_FMT_GZIP) (h1 : format ≠ SLZ_FMT_ZLIB) :
    (slz_init strm level format).1.format = (format % 4).toNat ∧
    (format % 4 = 0 →
      encodeDispatch (slz_init strm level format).1 = Codec.rfc1952 ∧
      finishDispatch (slz_init strm level format).1 = Codec.rfc1952) ∧
    (format % 4 = 1 →
      encodeDispatch (slz_init strm level format).1 = Codec.rfc1950 ∧
      finishDispatch (slz_init strm level format).1 = Codec.rfc1950) := by
  have hf := slz_init_format_eq strm level format h0 h1
  refine ⟨hf, ?_, ?_⟩
  · intro h
    rw [h] at hf
    constructor <;> simp [encodeDispatch, finishDispatch, hf, SLZ_FMT_GZIP]
  · intro h
    rw [h] at hf
    constructor <;>
      simp [encodeDispatch, finishDispatch, hf, SLZ_FMT_GZIP, SLZ_FMT_ZLIB]

/-- Witness for C9 at the concrete format arguments 4 and 5: both are
rejected by the gzip and zlib comparisons of slz_init, yet the stored 2-bit
field makes every later call dispatch to gzip and zlib respectively. -/
theorem slz_init_format_bitfield_witness :
    (slz_init sampleStream 1 4).1.format = 0 ∧
    encodeDispatch (slz_init sampleStream 1 4).1 = Codec.rfc1952 ∧
    (slz_init sampleStream 1 5).1.format = 1 ∧
    encodeDispatch (slz_init sampleStream 1 5).1 = Codec.rfc1950 :=
  ⟨((slz_init_format_bitfield sampleStream 1 4 (by decide)
      (by decide)).1).trans (by decide),
   ((slz_init_format_bitfield sampleStream 1 4 (by decide) (by decide)).2.1
      (by decide)).1,
   ((slz_init_format_bitfield sampleStream 1 5 (by decide)
      (by decide)).1).trans (by decide),
   ((slz_init_format_bitfield sampleStream 1 5 (by decide) (by decide)).2.2
      (by decide)).1⟩

/-- C2 counterexample: for the format argument 4, which is neither
SLZ_FMT_GZIP nor SLZ_FMT_ZLIB, the stream initialized by slz_init does not
dispatch later calls to the rfc1951 raw-deflate functions: the 2-bit format
bitfield truncates 4 to 0, so slz_encode and slz_finish dispatch to the
rfc1952 gzip functions. -/
theorem slz_init_fallback_counterexample :
    (4 : Int) ≠ SLZ_FMT_GZIP ∧ (4 : Int) ≠ SLZ_FMT_ZLIB ∧
    encodeDispatch (slz_init sampleStream 1 4).1 ≠ Codec.rfc1951 ∧
    encodeDispatch (slz_init sampleStream 1 4).1 = Codec.rfc1952 ∧
    finishDispatch (slz_init sampleStream 1 4).1 ≠ Codec.rfc1951 ∧
    finishDispatch (slz_init sampleStream 1 4).1 = Codec.rfc1952 := by
  decide

/-- C2 amended: for every format value other than SLZ_FMT_GZIP and
SLZ_FMT_ZLIB, slz_init runs the raw-deflate init, reports no error, and
stores format mod 4 in the 2-bit format field; subsequent slz_encode and
slz_finish calls dispatch on that stored value, so they use the rfc1951
raw-deflate functions exactly when format mod 4 is neither SLZ_FMT_GZIP nor
SLZ_FMT_ZLIB. -/
theorem slz_init_fallback_amended (strm : SlzStream) (level format : Int)
    (h0 : format ≠ SLZ_FMT_GZIP) (h1 : format ≠ SLZ_FMT_ZLIB) :
    initDispatch format = Codec.rfc1951 ∧
    (slz_init strm level format).2 = 0 ∧
    (slz_init strm level format).1.format = (format % 4).toNat ∧
    (encodeDispatch (slz_init strm level format).1 = Codec.rfc1951 ↔
      format % 4 ≠ 0 ∧ format % 4 ≠ 1) ∧
    (finishDispatch (slz_init strm level format).1 = Codec.rfc1951 ↔
      format % 4 ≠ 0 ∧ format % 4 ≠ 1) := by
  have hf := slz_init_format_eq strm level format h0 h1
  have hnn : 0 ≤ format % 4 := (format_emod_lt format).1
  have htn0 : (format % 4).toNat = 0 ↔ format % 4 = 0 := by omega
  have htn1 : (format % 4).toNat = 1 ↔ format % 4 = 1 := by omega
  have key : ∀ s : SlzStream, s.format = (format % 4).toNat →
      ((if s.format = SLZ_FMT_GZIP.toNat then Codec.rfc1952
        else if s.format = SLZ_FMT_ZLIB.toNat then Codec.rfc1950
        else Codec.rfc1951) = Codec.rfc1951 ↔
        format % 4 ≠ 0 ∧ format % 4 ≠ 1) := by
    intro s hs
    rw [hs]
    simp only [SLZ_FMT_GZIP, SLZ_FMT_ZLIB, Int.toNat_zero, Int.toNat_one]
    constructor
    · intro hd
      by_contra hc
      rw [not_and_or, not_not, not_not] at hc
      rcases hc with hc | hc <;> rw [hc] at hd <;> simp at hd
    · intro hc
      rw [if_neg, if_neg]
      · omega
      · omega
  exact ⟨by simp [initDispatch, if_neg h0, if_neg h1],
         slz_init_always_returns_zero strm level format, hf,
         key (slz_init strm level format).1 hf,
         key (slz_init strm level format).1 hf⟩

/-- Witness for the amended C2 at the concrete format argument 6: the
raw-deflate init branch is taken, no error is returned, 6 mod 4 = 2 is
stored, and both later dispatches go to rfc1951. -/
theorem slz_init_fallback_amended_witness :
    initDispatch 6 = Codec.rfc1951 ∧
    (slz_init sampleStream 1 6).2 = 0 ∧
    encodeDispatch (slz_init sampleStream 1 6).1 = Codec.rfc1951 ∧
    finishDispatch (slz_init sampleStream 1 6).1 = Codec.rfc1951 := by
  obtain ⟨ha, hb, hc, hd, he⟩ :=
    slz_init_fallback_amended sampleStream 1 6 (by decide) (by decide)
  exact ⟨ha, hb, hd.mpr (by decide), he.mpr (by decide)⟩

/-- C4: on a stream whose final encode call has completed (state DONE), the
first slz_finish call emits the full trailer (queue flush plus format
trailer) and moves the state to END; a second slz_finish call writes nothing
and leaves the stream unchanged at END. -/
theorem slz_finish_idempotent (strm : SlzStream)
    (hdone : strm.state = SlzState.DONE) :
    (slz_finish strm).1.state = SlzState.END ∧
    (slz_finish strm).2 = flushQueue strm.queue strm.qbits ++
      trailerBytes strm ∧
    slz_finish (slz_finish strm).1 = ((slz_finish strm).1, []) := by
  have hne : strm.state ≠ SlzState.END := by rw [hdone]; decide
  rw [slz_finish, if_neg hne]
  refine ⟨rfl, rfl, ?_⟩
  rw [slz_finish]
  rfl

/-- Witness for C4 at a concrete gzip stream in state DONE. -/
theorem slz_finish_idempotent_witness :
    (slz_finish doneStream).1.state = SlzState.END ∧
    (slz_finish doneStream).2 = flushQueue doneStream.queue
      doneStream.qbits ++ trailerBytes doneStream ∧
    slz_finish (slz_finish doneStream).1 = ((slz_finish doneStream).1, []) :=
  slz_finish_idempotent doneStream (by decide)

/-- C5: on a stream in state DONE whose bit queue holds at most 31 pending
bits, slz_finish flushes the queue to the next byte boundary, appends the
4 checksum bytes for zlib and gzip and additionally the 4 length bytes for
gzip, writes at most 12 bytes in total, returns that byte count, and
advances the state to SLZ_ST_END. -/
theorem slz_finish_writes_trailer (strm : SlzStream)
    (hdone : strm.state = SlzState.DONE) (hq : strm.qbits ≤ 31) :
    (slz_finish strm).1.state = SlzState.END ∧
    (slz_finish strm).1.qbits = 0 ∧
    (slz_finish strm).2 = flushQueue strm.queue strm.qbits ++
      trailerBytes strm ∧
    (trailerBytes strm).length =
      (if strm.format = SLZ_FMT_GZIP.toNat then 8
       else if strm.format = SLZ_FMT_ZLIB.toNat then 4 else 0) ∧
    (slz_finish strm).2.length =
      (strm.qbits + 7) / 8 + (trailerBytes strm).length ∧
    (slz_finish strm).2.length ≤ 12 := by
  have hne : strm.state ≠ SlzState.END := by rw [hdone]; decide
  have hflush : (flushQueue strm.queue strm.qbits).length =
      (strm.qbits + 7) / 8 := by
    rw [flushQueue, List.length_map, List.length_range]
  have htrail : (trailerBytes strm).length =
      (if strm.format = SLZ_FMT_GZIP.toNat then 8
       else if strm.format = SLZ_FMT_ZLIB.toNat then 4 else 0) := by
    rw [trailerBytes]
    split
    · rfl
    · split <;> rfl
  rw [slz_finish, if_neg hne]
  refine ⟨rfl, rfl, rfl, htrail, ?_, ?_⟩
  · rw [List.length_append, hflush]
  · rw [List.length_append, hflush, htrail]
    split
    · omega
    · split <;> omega

/-- Witness for C5 at a concrete gzip stream in state DONE with 3 pending
bits. -/
theorem slz_finish_writes_trailer_witness :
    (slz_finish doneStream).1.state = SlzState.END ∧
    (slz_finish doneStream).1.qbits = 0 ∧
    (slz_finish doneStream).2 = flushQueue doneStream.queue
      doneStream.qbits ++ trailerBytes doneStream ∧
    (trailerBytes doneStream).length =
      (if doneStream.format = SLZ_FMT_GZIP.toNat then 8
       else if doneStream.format = SLZ_FMT_ZLIB.toNat then 4 else 0) ∧
    (slz_finish doneStream).2.length =
      (doneStream.qbits + 7) / 8 + (trailerBytes doneStream).length ∧
    (slz_finish doneStream).2.length ≤ 12 :=
  slz_finish_writes_trailer doneStream (by decide) (by decide)

/-- Helper: running encode calls over a stream whose length field is in
32-bit range adds the sum of the ilen arguments, mod 2 ^ 32. -/
theorem runEncodes_ilen (calls : List (Nat × Bool)) :
    ∀ strm : SlzStream, strm.ilen < 2 ^ 32 →
      (runEncodes strm calls).ilen =
        (strm.ilen + (calls.map Prod.fst).sum) % 2 ^ 32 := by
  induction calls with
  | nil =>
    intro strm hlt
    simp only [runEncodes, List.foldl_nil, List.map_nil, List.sum_nil,
      Nat.add_zero]
    exact (Nat.mod_eq_of_lt hlt).symm
  | cons c cs ih =>
    intro strm hlt
    have hstep : (encodeStep strm c.1 c.2).ilen =
        (strm.ilen + c.1) % 2 ^ 32 := rfl
    have hrec := ih (encodeStep strm c.1 c.2)
      (by rw [hstep]; exact Nat.mod_lt _ (by decide))
    simp only [runEncodes, List.foldl_cons] at hrec ⊢
    rw [hrec, hstep, Nat.mod_add_mod, List.map_cons, List.sum_cons,
      Nat.add_assoc]

/-- C6: after initializing a stream with slz_init and performing any
sequence of slz_encode calls on it, the accumulated ilen field (a uint32_t,
used verbatim in the gzip trailer) equals the sum of all ilen arguments
passed to those calls, reduced mod 2 ^ 32. -/
theorem slz_ilen_accumulates (strm : SlzStream) (level format : Int)
    (calls : List (Nat × Bool)) :
    (runEncodes (slz_init strm level format).1 calls).ilen =
      (calls.map Prod.fst).sum % 2 ^ 32 := by
  have hzero : (slz_init strm level format).1.ilen = 0 := by
    rw [slz_init]
    split
    · rfl
    · split <;> rfl
  rw [runEncodes_ilen calls (slz_init strm level format).1
    (by rw [hzero]; decide), hzero, Nat.zero_add]

/-- Helper: one operation never lowers the state rank. -/
theorem applyOp_rank_le (strm : SlzStream) (op : SlzOp) :
    stateRank strm.state ≤ stateRank (applyOp strm op).state := by
  obtain ⟨q, qb, st, lv, fm, crc, il⟩ := strm
  cases op with
  | encode n m =>
    cases st <;> cases m <;> simp [applyOp, encodeStep, stateRank]
  | finish =>
    cases st <;> simp [applyOp, slz_finish, stateRank]

/-- Helper: only the finish operation can bring the state to END. -/
theorem applyOp_end_only_finish (strm : SlzStream) (op : SlzOp)
    (h : (applyOp strm op).state = SlzState.END) :
    strm.state = SlzState.END ∨ op = SlzOp.finish := by
  obtain ⟨q, qb, st, lv, fm, crc, il⟩ := strm
  cases op with
  | encode n m =>
    left
    cases st <;> cases m <;> simp_all [applyOp, encodeStep]
  | finish => right; rfl

/-- C8: over every sequence of encode and finish operations on a stream, the
state field never regresses along the order INIT, EOB, FIXED, LAST, DONE,
END, and a run that reaches SLZ_ST_END from a stream not already at END must
contain a finish operation: slz_finish is the only operation that moves the
state to SLZ_ST_END. -/
theorem slz_state_forward :
    (∀ (strm : SlzStream) (ops : List SlzOp),
      stateRank strm.state ≤ stateRank (runOps strm ops).state) ∧
    (∀ (strm : SlzStream) (ops : List SlzOp),
      (runOps strm ops).state = SlzState.END →
        strm.state = SlzState.END ∨ SlzOp.finish ∈ ops) := by
  constructor
  · intro strm ops
    induction ops generalizing strm with
    | nil => exact Nat.le_refl _
    | cons op ops ih =>
      calc stateRank strm.state ≤ stateRank (applyOp strm op).state :=
            applyOp_rank_le strm op
        _ ≤ stateRank (runOps (applyOp strm op) ops).state :=
            ih (applyOp strm op)
  · intro strm ops
    induction ops generalizing strm with
    | nil => intro h; exact Or.inl h
    | cons op ops ih =>
      intro h
      rcases ih (applyOp strm op) h with hend | hmem
      · rcases applyOp_end_only_finish strm op hend with hs | hop
        · exact Or.inl hs
        · exact Or.inr (by rw [hop]; exact List.mem_cons_self _ _)
      · exact Or.inr (List.mem_cons_of_mem op hmem)

/-- Witness for C8: the concrete run of one finish operation on a freshly
initialized stream reaches END, and the theorem attributes that to the
finish operation in the sequence. -/
theorem slz_state_forward_witness :
    sampleStream.state = SlzState.END ∨ SlzOp.finish ∈ [SlzOp.finish] :=
  slz_state_forward.2 sampleStream [SlzOp.finish] (by decide)

/-- Helper: xor and left-commutativity, to normalize xor expressions. -/
theorem xorLeftComm (a b c : Nat) : a ^^^ (b ^^^ c) = b ^^^ (a ^^^ c) := by
  rw [← Nat.xor_assoc, Nat.xor_comm a b, Nat.xor_assoc]

/-- Helper: xor distributes over right shift. -/
theorem xor_shiftRight_distrib (a b n : Nat) :
    (a ^^^ b) >>> n = (a >>> n) ^^^ (b >>> n) := by
  apply Nat.eq_of_testBit_eq
  intro i
  simp [Nat.testBit_shiftRight, Nat.testBit_xor]

/-- Helper: masking with 255 is reduction mod 256. -/
theorem and255_eq_mod (a : Nat) : a &&& 255 = a % 256 := by
  have h := Nat.and_pow_two_sub_one_eq_mod a 8
  norm_num at h
  exact h

/-- Helper: masking with 255 gives a byte. -/
theorem and255_lt (a : Nat) : a &&& 255 < 256 := by
  rw [and255_eq_mod]
  exact Nat.mod_lt a (by decide)

/-- Helper: xor distributes over the 255 mask. -/
theorem xor_and255 (a b : Nat) :
    (a ^^^ b) &&& 255 = (a &&& 255) ^^^ (b &&& 255) :=
  Nat.and_xor_distrib_right

/-- Helper: a byte is unchanged by the 255 mask. -/
theorem byte_and255 (b : Nat) (h : b < 256) : b &&& 255 = b := by
  rw [and255_eq_mod]
  exact Nat.mod_eq_of_lt h

/-- Helper: a byte shifted right by 8 vanishes. -/
theorem byte_shiftRight8 (b : Nat) (h : b < 256) : b >>> 8 = 0 := by
  rw [Nat.shiftRight_eq_div_pow]
  exact Nat.div_eq_of_lt (by norm_num; exact h)

/-- Helper: xoring a byte into a value does not change its high part. -/
theorem xor_byte_shiftRight8 (x b : Nat) (h : b < 256) :
    (x ^^^ b) >>> 8 = x >>> 8 := by
  rw [xor_shiftRight_distrib, byte_shiftRight8 b h, Nat.xor_zero]

/-- Helper: xoring a byte into a value xors it into the low byte. -/
theorem xor_byte_and255 (x b : Nat) (h : b < 256) :
    (x ^^^ b) &&& 255 = (x &&& 255) ^^^ b := by
  rw [xor_and255, byte_and255 b h]

/-- The CRC bit step is linear over xor. -/
theorem crcStepBit_linear (a b : Nat) :
    crcStepBit (a ^^^ b) = crcStepBit a ^^^ crcStepBit b := by
  have hand : (a ^^^ b) &&& 1 = (a &&& 1) ^^^ (b &&& 1) :=
    Nat.and_xor_distrib_right
  have ha : a &&& 1 = 0 ∨ a &&& 1 = 1 := by
    rw [Nat.and_one_is_mod]
    exact Nat.mod_two_eq_zero_or_one a
  have hb : b &&& 1 = 0 ∨ b &&& 1 = 1 := by
    rw [Nat.and_one_is_mod]
    exact Nat.mod_two_eq_zero_or_one b
  rw [crcStepBit, crcStepBit, crcStepBit, hand, xor_shiftRight_distrib]
  rcases ha with ha | ha <;> rcases hb with hb | hb <;> rw [ha, hb] <;>
    simp [Nat.xor_assoc, Nat.xor_comm, xorLeftComm, Nat.xor_cancel_left]

/-- Iterates of the CRC bit step are linear over xor. -/
theorem crcStepBit_iterate_linear (n : Nat) : ∀ a b : Nat,
    crcStepBit^[n] (a ^^^ b) = crcStepBit^[n] a ^^^ crcStepBit^[n] b := by
  induction n with
  | zero => intro a b; rfl
  | succ n ih =>
    intro a b
    rw [Function.iterate_succ_apply, Function.iterate_succ_apply,
      Function.iterate_succ_apply, crcStepBit_linear]
    exact ih _ _

/-- The CRC-32 table is linear over xor of its index. -/
theorem crcTable0_linear (a b : Nat) :
    crcTable0 (a ^^^ b) = crcTable0 a ^^^ crcTable0 b :=
  crcStepBit_iterate_linear 8 a b

/-- The CRC byte step is linear over xor. -/
theorem crcF_linear (x y : Nat) :
    crcF (x ^^^ y) = crcF x ^^^ crcF y := by
  rw [crcF, crcF, crcF, xor_and255, crcTable0_linear, xor_shiftRight_distrib]
  simp [Nat.xor_assoc, Nat.xor_comm, xorLeftComm]

/-- One byte step expands to a table-0 lookup of the low byte plus the
shifted high part. -/
theorem crcF_expand0 (c : Nat) :
    crcF c = crcTable 0 (c &&& 255) ^^^ (c >>> 8) := rfl

/-- Two byte steps expand to a table-1 lookup of the low byte plus one byte
step of the high part. -/
theorem crcF_expand1 (c : Nat) :
    crcF (crcF c) = crcTable 1 (c &&& 255) ^^^ crcF (c >>> 8) := by
  rw [crcF_expand0 c, crcF_linear]
  rfl

/-- Three byte steps expand to a table-2 lookup of the low byte plus two
byte steps of the high part. -/
theorem crcF_expand2 (c : Nat) :
    crcF (crcF (crcF c)) =
      crcTable 2 (c &&& 255) ^^^ crcF (crcF (c >>> 8)) := by
  rw [crcF_expand1 c, crcF_linear]
  rfl

/-- Four byte steps expand to a table-3 lookup of the low byte plus three
byte steps of the high part. -/
theorem crcF_expand3 (c : Nat) :
    crcF (crcF (crcF (crcF c))) =
      crcTable 3 (c &&& 255) ^^^ crcF (crcF (crcF (c >>> 8))) := by
  rw [crcF_expand2 c, crcF_linear]
  rfl

/-- The CRC byte update is the byte step applied to state xor byte. -/
theorem crcByte_eq_crcF (c b : Nat) (hb : b < 256) :
    crcByte c b = crcF (c ^^^ b) := by
  rw [crcByte, crcF, xor_byte_shiftRight8 c b hb]

/-- The CRC bit step keeps values in 32-bit range. -/
theorem crcStepBit_lt (c : Nat) (h : c < 2 ^ 32) : crcStepBit c < 2 ^ 32 := by
  have hs : c >>> 1 < 2 ^ 32 := by
    rw [Nat.shiftRight_eq_div_pow]
    exact Nat.lt_of_le_of_lt (Nat.div_le_self c (2 ^ 1)) h
  rw [crcStepBit]
  split
  · exact Nat.xor_lt_two_pow hs (by rw [crcPoly]; norm_num)
  · exact hs

/-- Iterates of the CRC bit step keep values in 32-bit range. -/
theorem crcStepBit_iterate_lt (n : Nat) : ∀ c : Nat, c < 2 ^ 32 →
    crcStepBit^[n] c < 2 ^ 32 := by
  induction n with
  | zero => intro c h; exact h
  | succ n ih =>
    intro c h
    rw [Function.iterate_succ_apply]
    exact ih _ (crcStepBit_lt c h)

/-- The CRC-32 table takes 32-bit values on 32-bit inputs. -/
theorem crcTable0_lt (b : Nat) (h : b < 2 ^ 32) : crcTable0 b < 2 ^ 32 :=
  crcStepBit_iterate_lt 8 b h

/-- The CRC byte step keeps values in 32-bit range. -/
theorem crcF_lt (y : Nat) (h : y < 2 ^ 32) : crcF y < 2 ^ 32 := by
  rw [crcF]
  refine Nat.xor_lt_two_pow (crcTable0_lt _ ?_) ?_
  · exact Nat.lt_of_lt_of_le (and255_lt y) (by norm_num)
  · rw [Nat.shiftRight_eq_div_pow]
    exact Nat.lt_of_le_of_lt (Nat.div_le_self y (2 ^ 8)) h

/-- Every slicing table takes 32-bit values on 32-bit inputs. -/
theorem crcTable_lt (k : Nat) : ∀ b : Nat, b < 2 ^ 32 →
    crcTable k b < 2 ^ 32 := by
  induction k with
  | zero => intro b h; exact crcTable0_lt b h
  | succ k ih =>
    intro b h
    rw [crcTable]
    exact crcF_lt _ (ih b h)

/-- The slicing-by-4 batch step keeps values in 32-bit range when the four
incoming bytes are bytes. -/
theorem crcWord4_lt (c b0 b1 b2 b3 : Nat)
    (h0 : b0 < 256) (h1 : b1 < 256) (h2 : b2 < 256) (h3 : b3 < 256) :
    crcWord4 c b0 b1 b2 b3 < 2 ^ 32 := by
  have harg : ∀ x b : Nat, b < 256 → (x &&& 255) ^^^ b < 2 ^ 32 := by
    intro x b hb
    refine Nat.lt_of_lt_of_le (Nat.xor_lt_two_pow (n := 8) ?_ ?_) (by norm_num)
    · exact and255_lt x
    · exact hb
  rw [crcWord4]
  exact Nat.xor_lt_two_pow (Nat.xor_lt_two_pow (Nat.xor_lt_two_pow
    (crcTable_lt 3 _ (harg c b0 h0)) (crcTable_lt 2 _ (harg (c >>> 8) b1 h1)))
    (crcTable_lt 1 _ (harg (c >>> 16) b2 h2)))
    (crcTable_lt 0 _ (harg (c >>> 24) b3 h3))

/-- Composing shifts: shifting by 8 twice is shifting by 16, three times is
shifting by 24, four times is shifting by 32. -/
theorem shiftRight8_8 (c : Nat) : (c >>> 8) >>> 8 = c >>> 16 := by
  rw [← Nat.shiftRight_add]

/-- Shifting a 16-shift by 8 more is shifting by 24. -/
theorem shiftRight16_8 (c : Nat) : (c >>> 16) >>> 8 = c >>> 24 := by
  rw [← Nat.shiftRight_add]

/-- Shifting a 24-shift by 8 more empties a 32-bit value. -/
theorem shiftRight24_8 (c : Nat) (h : c < 2 ^ 32) : (c >>> 24) >>> 8 = 0 := by
  rw [← Nat.shiftRight_add, Nat.shiftRight_eq_div_pow]
  exact Nat.div_eq_of_lt (by norm_num; exact h)

/-- Every slicing table is linear over xor of its index. -/
theorem crcTable_linear (k : Nat) : ∀ a b : Nat,
    crcTable k (a ^^^ b) = crcTable k a ^^^ crcTable k b := by
  induction k with
  | zero => intro a b; exact crcTable0_linear a b
  | succ k ih =>
    intro a b
    rw [crcTable, crcTable, crcTable, ih a b, crcF_linear]

/-- The CRC byte step maps 0 to 0. -/
theorem crcF_zero : crcF 0 = 0 := by decide

/-- One byte step on a byte is a table-0 lookup. -/
theorem crcF_byte1 (b : Nat) (h : b < 256) : crcF b = crcTable 0 b := by
  rw [crcF_expand0, byte_and255 b h, byte_shiftRight8 b h, Nat.xor_zero]

/-- Two byte steps on a byte are a table-1 lookup. -/
theorem crcF_byte2 (b : Nat) (h : b < 256) :
    crcF (crcF b) = crcTable 1 b := by
  rw [crcF_expand1, byte_and255 b h, byte_shiftRight8 b h, crcF_zero,
    Nat.xor_zero]

/-- Three byte steps on a byte are a table-2 lookup. -/
theorem crcF_byte3 (b : Nat) (h : b < 256) :
    crcF (crcF (crcF b)) = crcTable 2 b := by
  rw [crcF_expand2, byte_and255 b h, byte_shiftRight8 b h, crcF_zero,
    crcF_zero, Nat.xor_zero]

/-- Four byte steps on a byte are a table-3 lookup. -/
theorem crcF_byte4 (b : Nat) (h : b < 256) :
    crcF (crcF (crcF (crcF b))) = crcTable 3 b := by
  rw [crcF_expand3, byte_and255 b h, byte_shiftRight8 b h, crcF_zero,
    crcF_zero, crcF_zero, Nat.xor_zero]

/-- Four successive CRC byte updates on a 32-bit state equal one
slicing-by-4 batch step. -/
theorem crcWord4_eq (c b0 b1 b2 b3 : Nat) (hc : c < 2 ^ 32)
    (h0 : b0 < 256) (h1 : b1 < 256) (h2 : b2 < 256) (h3 : b3 < 256) :
    crcByte (crcByte (crcByte (crcByte c b0) b1) b2) b3 =
      crcWord4 c b0 b1 b2 b3 := by
  rw [crcByte_eq_crcF _ _ h0, crcByte_eq_crcF _ _ h1, crcByte_eq_crcF _ _ h2,
    crcByte_eq_crcF _ _ h3, crcWord4]
  simp only [crcF_linear, crcTable_linear]
  rw [crcF_byte4 b0 h0, crcF_byte3 b1 h1, crcF_byte2 b2 h2, crcF_byte1 b3 h3]
  rw [crcF_expand3 c, crcF_expand2 (c >>> 8), shiftRight8_8,
    crcF_expand1 (c >>> 16), shiftRight16_8, crcF_expand0 (c >>> 24),
    shiftRight24_8 c hc]
  simp [Nat.xor_assoc, Nat.xor_comm, xorLeftComm]

/-- The slicing-by-4 CRC equals the byte-at-a-time CRC, by strong induction
on the buffer length. -/
theorem slz_crc32_by4_eq_by1_aux (n : Nat) : ∀ buf : List Nat,
    buf.length ≤ n → ∀ c : Nat, c < 2 ^ 32 → (∀ b ∈ buf, b < 256) →
    slz_crc32_by4 c buf = slz_crc32_by1 c buf := by
  induction n with
  | zero =>
    intro buf hlen c _ _
    rw [List.eq_nil_of_length_eq_zero (Nat.le_zero.mp hlen)]
    rfl
  | succ n ih =>
    intro buf hlen c hc hb
    match buf, hlen, hb with
    | [], _, _ => rfl
    | [b0], _, _ => rfl
    | [b0, b1], _, _ => rfl
    | [b0, b1, b2], _, _ => rfl
    | b0 :: b1 :: b2 :: b3 :: rest, hlen, hb =>
      have h0 : b0 < 256 := hb b0 (by simp)
      have h1 : b1 < 256 := hb b1 (by simp)
      have h2 : b2 < 256 := hb b2 (by simp)
      have h3 : b3 < 256 := hb b3 (by simp)
      have hrest : ∀ b ∈ rest, b < 256 := by
        intro b hmem
        exact hb b (by simp [hmem])
      have hlen' : rest.length ≤ n := by
        simp only [List.length_cons] at hlen
        omega
      have hw : crcWord4 c b0 b1 b2 b3 < 2 ^ 32 :=
        crcWord4_lt c b0 b1 b2 b3 h0 h1 h2 h3
      have hrec := ih rest hlen' (crcWord4 c b0 b1 b2 b3) hw hrest
      show slz_crc32_by4 (crcWord4 c b0 b1 b2 b3) rest =
        slz_crc32_by1 c (b0 :: b1 :: b2 :: b3 :: rest)
      rw [hrec, slz_crc32_by1, slz_crc32_by1, List.foldl_cons,
        List.foldl_cons, List.foldl_cons, List.foldl_cons,
        ← crcWord4_eq c b0 b1 b2 b3 hc h0 h1 h2 h3]

/-- Unpacking after packing recovers any pair of 16-bit sums. -/
theorem adlerUnpack_pack (p : Nat × Nat) (h1 : p.1 < 65536)
    (h2 : p.2 < 65536) : adlerUnpack (adlerPack p) = p := by
  obtain ⟨s1, s2⟩ := p
  simp only [adlerPack, adlerUnpack] at *
  simp only [Prod.mk.injEq]
  omega

/-- Packing after unpacking recovers any 32-bit state. -/
theorem adlerPack_unpack (crc : Nat) (hc : crc < 2 ^ 32) :
    adlerPack (adlerUnpack crc) = crc := by
  simp only [adlerPack, adlerUnpack]
  omega

/-- The Adler byte step keeps both sums reduced. -/
theorem adlerStep_lt (p : Nat × Nat) (b : Nat) :
    (adlerStep p b).1 < adlerMod ∧ (adlerStep p b).2 < adlerMod :=
  ⟨Nat.mod_lt _ (by rw [adlerMod]; omega),
   Nat.mod_lt _ (by rw [adlerMod]; omega)⟩

/-- The unreduced Adler accumulation is congruent mod 65521 in its starting
pair. -/
theorem adlerRaw_modEq (bs : List Nat) : ∀ p q : Nat × Nat,
    p.1 ≡ q.1 [MOD adlerMod] → p.2 ≡ q.2 [MOD adlerMod] →
    (adlerRaw p bs).1 ≡ (adlerRaw q bs).1 [MOD adlerMod] ∧
    (adlerRaw p bs).2 ≡ (adlerRaw q bs).2 [MOD adlerMod] := by
  induction bs with
  | nil => intro p q h1 h2; exact ⟨h1, h2⟩
  | cons b bs ih =>
    intro p q h1 h2
    exact ih (p.1 + b, p.2 + p.1 + b) (q.1 + b, q.2 + q.1 + b)
      (h1.add_right b) ((h2.add h1).add_right b)

/-- On a nonempty chunk, folding the reduced byte step equals accumulating
without reduction and reducing once at the end. -/
theorem adlerFold_eq_raw (bs : List Nat) : ∀ p : Nat × Nat, bs ≠ [] →
    List.foldl adlerStep p bs =
      ((adlerRaw p bs).1 % adlerMod, (adlerRaw p bs).2 % adlerMod) := by
  induction bs with
  | nil => intro p h; exact absurd rfl h
  | cons b bs ih =>
    intro p _
    by_cases hbs : bs = []
    · subst hbs
      show adlerStep p b = _
      simp only [adlerRaw, List.foldl_cons, List.foldl_nil, adlerStep,
        Prod.mk.injEq]
      refine ⟨trivial, ?_⟩
      rw [Nat.add_mod_mod, ← Nat.add_assoc]
    · rw [List.foldl_cons, ih (adlerStep p b) hbs]
      have hstep2 : (adlerStep p b).2 ≡
          (p.1 + b, p.2 + p.1 + b).2 [MOD adlerMod] := by
        show (p.2 + (p.1 + b) % adlerMod) % adlerMod ≡
          p.2 + p.1 + b [MOD adlerMod]
        rw [Nat.add_assoc]
        exact (Nat.mod_modEq _ _).trans
          ((Nat.mod_modEq (p.1 + b) adlerMod).add_left p.2)
      have hcong := adlerRaw_modEq bs (adlerStep p b)
        (p.1 + b, p.2 + p.1 + b) (Nat.mod_modEq _ _) hstep2
      show _ = ((adlerRaw (p.1 + b, p.2 + p.1 + b) bs).1 % adlerMod,
        (adlerRaw (p.1 + b, p.2 + p.1 + b) bs).2 % adlerMod)
      simp only [Prod.mk.injEq]
      exact ⟨hcong.1, hcong.2⟩

/-- On a nonempty chunk, the chunk accumulation equals folding the reduced
byte step. -/
theorem adlerChunk_eq_fold (bs : List Nat) (p : Nat × Nat) (h : bs ≠ []) :
    adlerChunk p bs = List.foldl adlerStep p bs :=
  (adlerFold_eq_raw bs p h).symm

/-- On a nonempty buffer, the chunked block accumulation equals folding the
reduced byte step over the whole buffer. -/
theorem adlerBlocks_eq_fold (n : Nat) : ∀ bs : List Nat, bs.length ≤ n →
    ∀ p : Nat × Nat, bs ≠ [] →
    adlerBlocks p bs = List.foldl adlerStep p bs := by
  induction n with
  | zero =>
    intro bs hlen p hne
    exact absurd (List.eq_nil_of_length_eq_zero (Nat.le_zero.mp hlen)) hne
  | succ n ih =>
    intro bs hlen p hne
    rw [adlerBlocks]
    by_cases hle : bs.length ≤ 5552
    · rw [dif_pos hle, if_neg hne]
      exact adlerChunk_eq_fold bs p hne
    · rw [dif_neg hle]
      have hdne : bs.drop 5552 ≠ [] := by
        intro hcontra
        have hlen0 := congrArg List.length hcontra
        simp only [List.length_drop, List.length_nil] at hlen0
        omega
      have hdlen : (bs.drop 5552).length ≤ n := by
        simp only [List.length_drop]
        omega
      have htne : bs.take 5552 ≠ [] := by
        intro hcontra
        have hlen0 := congrArg List.length hcontra
        simp only [List.length_take, List.length_nil] at hlen0
        omega
      rw [ih (bs.drop 5552) hdlen _ hdne,
        adlerChunk_eq_fold (bs.take 5552) p htne, ← List.foldl_append,
        List.take_append_drop]

/-- Iterating the byte-at-a-time Adler update over a buffer equals folding
the reduced byte step on the unpacked pair, for a packed reduced pair. -/
theorem adler_by1_fold (bs : List Nat) : ∀ p : Nat × Nat,
    p.1 < 65536 → p.2 < 65536 →
    List.foldl (fun c b => slz_adler32_by1 c [b]) (adlerPack p) bs =
      adlerPack (List.foldl adlerStep p bs) := by
  induction bs with
  | nil => intro p _ _; rfl
  | cons b bs ih =>
    intro p h1 h2
    rw [List.foldl_cons, List.foldl_cons]
    have hby1 : slz_adler32_by1 (adlerPack p) [b] =
        adlerPack (adlerStep p b) := by
      rw [slz_adler32_by1, adlerUnpack_pack p h1 h2]
      rfl
    rw [hby1]
    exact ih (adlerStep p b)
      (Nat.lt_of_lt_of_le (adlerStep_lt p b).1 (by rw [adlerMod]; omega))
      (Nat.lt_of_lt_of_le (adlerStep_lt p b).2 (by rw [adlerMod]; omega))

/-- The block Adler-32 update equals iterating the byte-at-a-time update
over the buffer, for every 32-bit starting state. -/
theorem slz_adler32_block_eq (crc : Nat) (buf : List Nat)
    (hc : crc < 2 ^ 32) :
    slz_adler32_block crc buf =
      List.foldl (fun c b => slz_adler32_by1 c [b]) crc buf := by
  by_cases hne : buf = []
  · subst hne
    rw [slz_adler32_block, adlerBlocks, dif_pos (by simp), if_pos rfl,
      adlerPack_unpack crc hc]
    rfl
  · rw [slz_adler32_block,
      adlerBlocks_eq_fold buf.length buf (Nat.le_refl _) _ hne,
      ← adler_by1_fold buf (adlerUnpack crc)
        (Nat.mod_lt crc (by omega)) (Nat.mod_lt _ (by omega)),
      adlerPack_unpack crc hc]

/-- C3: the block-update checksum entry points agree with folding the
single-byte update over the bytes in order: slz_crc32_by4 equals iterating
slz_crc32_by1 one byte at a time (for every 32-bit starting state and every
buffer of bytes), and slz_adler32_block equals iterating slz_adler32_by1
one byte at a time (for every 32-bit starting state). -/
theorem slz_checksum_block_eq_by1 :
    (∀ (crc : Nat) (buf : List Nat), crc < 2 ^ 32 →
      (∀ b ∈ buf, b < 256) →
      slz_crc32_by4 crc buf =
        List.foldl (fun c b => slz_crc32_by1 c [b]) crc buf) ∧
    (∀ (crc : Nat) (buf : List Nat), crc < 2 ^ 32 →
      slz_adler32_block crc buf =
        List.foldl (fun c b => slz_adler32_by1 c [b]) crc buf) := by
  constructor
  · intro crc buf hc hb
    have hfun : (fun c b => slz_crc32_by1 c [b]) = crcByte := by
      funext x y
      rfl
    rw [hfun]
    exact slz_crc32_by4_eq_by1_aux buf.length buf (Nat.le_refl _) crc hc hb
  · intro crc buf hc
    exact slz_adler32_block_eq crc buf hc

/-- Witness for C3 at concrete inputs: a 5-byte buffer for the CRC (one
4-byte batch plus one remaining byte) and a 3-byte buffer for the Adler
update from its initial state 1. -/
theorem slz_checksum_block_eq_by1_witness :
    slz_crc32_by4 0 [1, 2, 3, 4, 5] =
      List.foldl (fun c b => slz_crc32_by1 c [b]) 0 [1, 2, 3, 4, 5] ∧
    slz_adler32_block 1 [10, 20, 30] =
      List.foldl (fun c b => slz_adler32_by1 c [b]) 1 [10, 20, 30] :=
  ⟨slz_checksum_block_eq_by1.1 0 [1, 2, 3, 4, 5] (by decide) (by decide),
   slz_checksum_block_eq_by1.2 1 [10, 20, 30] (by decide)⟩
